import Mathlib

/-!
Shallow embedding of `src/modwt.py` (class `MODWTPeriodExtractor`) and the
properties of its period extraction.  Real (float) values are modelled
exactly as rationals; the external wavelet library (`pywt`) enters as a
function parameter, since its numerical output is not part of this
repository's code.
-/

set_option maxRecDepth 8000

namespace Modwt

/-- A `(period, energy)` pair as appended to `candidates` in `extract`. -/
abbrev Candidate := ℕ × ℚ

/-- `np.var(xs)` with numpy's default `ddof=0`: the mean of squared
deviations from the mean, i.e. the population variance (division by the
count, not `count - 1`).  `np.var` of an empty array is NaN; the zero guard
is unreachable for genuine transform output, whose detail sequences have
the padded input's length. -/
def npVar (xs : List ℚ) : ℚ :=
  if xs.length = 0 then 0
  else
    ((xs.map fun x => (x - xs.sum / (xs.length : ℚ)) ^ 2).sum) / (xs.length : ℚ)

/-- The index into the original array that `np.pad(. , (0, w), 'reflect')`
reads for overall position `k ≥ n`: reflective extension is the triangular
wave of period `2*(n-1)` in which position `n-1` reflects around itself. -/
def reflectIndex (n k : ℕ) : ℕ :=
  if k % (2 * (n - 1)) ≤ n - 1 then k % (2 * (n - 1))
  else 2 * (n - 1) - k % (2 * (n - 1))

/-- `np.pad(data, (0, padWidth), 'reflect')`: the original data followed by
`padWidth` reflected samples. -/
def npPadReflect (data : List ℚ) (padWidth : ℕ) : List ℚ :=
  data ++ (List.range padWidth).map fun i =>
    data.getD (reflectIndex data.length (data.length + i)) 0

/-- `MODWTPeriodExtractor._pad_sequence`: extends `data` to length
`ceil(n / 2^maxLevel) * 2^maxLevel` by reflective padding (only when the
target exceeds `n`) and returns the padded data with the original length.
`int(np.ceil(n / m)) * m` is the exact ceiling `(n + m - 1) / m * m`. -/
def padSequence (data : List ℚ) (maxLevel : ℕ) : List ℚ × ℕ :=
  let n := data.length
  let targetLen := ((n + 2 ^ maxLevel - 1) / 2 ^ maxLevel) * 2 ^ maxLevel
  if n < targetLen then (npPadReflect data (targetLen - n), n) else (data, n)

/-- Fuel-driven floor base-2 logarithm; with fuel `≥ n` it agrees with
`Nat.log2 n` (see `floorLog2_eq_log2`) while remaining structurally
recursive. -/
def floorLog2Aux : ℕ → ℕ → ℕ
  | 0, _ => 0
  | fuel + 1, n => if 2 ≤ n then floorLog2Aux fuel (n / 2) + 1 else 0

/-- `int(np.floor(np.log2(L)))` for `L ≥ 1`: the floor base-2 logarithm. -/
def floorLog2 (n : ℕ) : ℕ := floorLog2Aux n n

/-- `decompose_level = min(12, int(np.floor(np.log2(L))))` for `L ≥ 1`.
The cap 12 is applied whether or not a maximum-period constraint was
supplied. -/
def decomposeLevel (L : ℕ) : ℕ := min 12 (floorLog2 L)

/-- The shape of `pywt.swt`: given the (padded) data, the wavelet name and
the level count, one `(cA, cD)` pair per level, deepest level first, so
that Python's `coeffs[-j]` addresses level `j`.  The transform's numerical
content is external library code, so the extractor is parametric in it. -/
abbrev SwtFun := List ℚ → String → ℕ → List (List ℚ × List ℚ)

/-- The two failure points `extract` hits on an undersized input: for an
empty input, `int(np.floor(np.log2(0)))` fails (`log2(0)` is `-inf`, which
cannot be converted to `int`); for a single sample, `decompose_level` is 0
and `pywt.swt` rejects any level below 1. -/
inductive ExtractError
  | log2OfZero
  | swtLevelTooSmall
deriving Repr, DecidableEq

/-- The stored configuration of `MODWTPeriodExtractor.__init__`. -/
structure MODWTPeriodExtractor where
  wavelet_name : String
  top_k : ℕ
deriving Repr, DecidableEq

/-- Construction-time failure: the `assert wavelet_name in pywt.wavelist()`
in `__init__` fires for a name outside the library's wavelet list. -/
inductive ConstructError
  | unknownWavelet
deriving Repr, DecidableEq

/-- `MODWTPeriodExtractor.__init__`: stores the configuration after eagerly
checking the wavelet name against the library's list (a parameter here,
since `pywt.wavelist()` is external library data). -/
def mkExtractor (wavelist : List String) (waveletName : String) (topK : ℕ) :
    Except ConstructError MODWTPeriodExtractor :=
  if waveletName ∈ wavelist then .ok ⟨waveletName, topK⟩
  else .error .unknownWavelet

/-- The dictionary `extract` returns. -/
structure ExtractionResult where
  all_periods : List ℕ
  all_energies : List ℚ
  top_k : List Candidate
deriving Repr, DecidableEq

/-- The guard of the per-level loop: a level is skipped exactly when a
maximum-allowed-period constraint is supplied and the level's period
exceeds it. -/
def exceedsMax (maxAllowedPeriod : Option ℕ) (period : ℕ) : Bool :=
  match maxAllowedPeriod with
  | some m => decide (m < period)
  | none => false

/-- One iteration of the loop `for j in range(1, decompose_level + 1)`:
under the constraint guard, nothing is produced (in particular no energy is
computed); otherwise the detail coefficients `coeffs[-j][1]` are truncated
to the original length and scored by `np.var`. -/
def levelCandidate (coeffs : List (List ℚ × List ℚ)) (originalLen : ℕ)
    (maxAllowedPeriod : Option ℕ) (j : ℕ) : Option Candidate :=
  if exceedsMax maxAllowedPeriod (2 ^ j) then none
  else some (2 ^ j, npVar ((coeffs.getD (coeffs.length - j) ([], [])).2.take originalLen))

/-- The full `candidates` list built by the loop, levels `1..level` in
order. -/
def extractCandidates (coeffs : List (List ℚ × List ℚ)) (originalLen : ℕ)
    (maxAllowedPeriod : Option ℕ) (level : ℕ) : List Candidate :=
  (List.range level).filterMap fun i =>
    levelCandidate coeffs originalLen maxAllowedPeriod (i + 1)

/-- Insertion into a list already ordered by non-increasing energy, placed
before the first element whose energy does not exceed the new one. -/
def insertByEnergyDesc (c : Candidate) : List Candidate → List Candidate
  | [] => [c]
  | d :: ds => if d.2 ≤ c.2 then c :: d :: ds else d :: insertByEnergyDesc c ds

/-- `sorted(candidates, key=lambda x: x[1], reverse=True)`: Python's sort
is stable, so with `reverse=True` it orders energies descending while
elements of exactly equal energy keep their original relative order.
Right-to-left insertion with `insertByEnergyDesc` places each element
before the later elements of equal energy, which is exactly that
behaviour. -/
def sortByEnergyDesc : List Candidate → List Candidate
  | [] => []
  | c :: cs => insertByEnergyDesc c (sortByEnergyDesc cs)

/-- Assembles the returned dictionary from the `candidates` list:
`all_periods`/`all_energies` project the (ascending-period) candidates, and
`top_k` takes the first `top_k` entries of the stable descending sort. -/
def mkResult (cands : List Candidate) (topK : ℕ) : ExtractionResult :=
  { all_periods := cands.map Prod.fst
    all_energies := cands.map Prod.snd
    top_k := (sortByEnergyDesc cands).take topK }

/-- `MODWTPeriodExtractor.extract`.  `inputName` is only interpolated into
the progress line printed on stdout; it does not enter the returned
dictionary.  The two error branches reproduce the failure points of the
source line by line: the `log2` of an empty input fails, and `pywt.swt`
rejects a level count below 1 (which happens exactly when the input has a
single sample, making `decompose_level = 0`). -/
def extract (swt : SwtFun) (cfg : MODWTPeriodExtractor) (data : List ℚ)
    (inputName : String) (maxAllowedPeriod : Option ℕ) :
    Except ExtractError ExtractionResult :=
  if data.length = 0 then .error .log2OfZero
  else
    let level := decomposeLevel data.length
    if level < 1 then .error .swtLevelTooSmall
    else
      let pr := padSequence data level
      let coeffs := swt pr.1 cfg.wavelet_name level
      .ok (mkResult (extractCandidates coeffs pr.2 maxAllowedPeriod level) cfg.top_k)

/-- The energy formula as the specification words it — the unbiased sample
variance: sum of squared deviations from the mean divided by `count - 1`,
defined as `0` when `count ≤ 1`.  Stated only for comparison with the
source's `np.var`; `extract` does not use it. -/
def specSampleVariance (xs : List ℚ) : ℚ :=
  if xs.length ≤ 1 then 0
  else ((xs.map fun x => (x - xs.sum / (xs.length : ℚ)) ^ 2).sum) / ((xs.length : ℚ) - 1)

/-- The population variance, worded independently of `npVar`: sum of
squared deviations from the mean divided by the count, `0` when
`count ≤ 1`. -/
def populationVariance (xs : List ℚ) : ℚ :=
  if xs.length ≤ 1 then 0
  else ((xs.map fun x => (x - xs.sum / (xs.length : ℚ)) ^ 2).sum) / (xs.length : ℚ)

/-- The order in which the code's stable descending sort lists candidates
of pairwise distinct periods: strictly greater energy first, and ascending
period among exactly equal energies. -/
def candLex (a b : Candidate) : Prop := b.2 < a.2 ∨ (a.2 = b.2 ∧ a.1 < b.1)

/-! ### Heap-level model for the frame property

Numpy arrays live in a store addressed by identifiers; `np.pad` always
allocates a fresh array, and neither `extract` nor `_pad_sequence`
contains an element assignment, so the only store change is that
allocation. -/

/-- The heap of numpy arrays in play; an array identifier is an index. -/
abbrev Store := List (List ℚ)

/-- `_pad_sequence` at store level: reads the array, and when padding is
needed allocates the padded copy as a fresh array (the local name is
rebound to it); it returns the store, the identifier of the resulting
array, and the original length. -/
def padSequenceSt (σ : Store) (arr : ℕ) (maxLevel : ℕ) : Store × ℕ × ℕ :=
  let data := σ.getD arr []
  let n := data.length
  let targetLen := ((n + 2 ^ maxLevel - 1) / 2 ^ maxLevel) * 2 ^ maxLevel
  if n < targetLen then (σ ++ [npPadReflect data (targetLen - n)], σ.length, n)
  else (σ, arr, n)

/-- `extract` at store level: the input array is only read; the store is
touched exclusively through `padSequenceSt`. -/
def extractSt (swt : SwtFun) (cfg : MODWTPeriodExtractor) (σ : Store)
    (arr : ℕ) (maxAllowedPeriod : Option ℕ) :
    Store × Except ExtractError ExtractionResult :=
  let data := σ.getD arr []
  if data.length = 0 then (σ, .error .log2OfZero)
  else
    let level := decomposeLevel data.length
    if level < 1 then (σ, .error .swtLevelTooSmall)
    else
      let pr := padSequenceSt σ arr level
      let coeffs := swt (pr.1.getD pr.2.1 []) cfg.wavelet_name level
      (pr.1, .ok (mkResult (extractCandidates coeffs pr.2.2 maxAllowedPeriod level) cfg.top_k))

/-! ### Concrete transforms used by witnesses and counterexamples

The extractor is parametric in the external transform, so witnesses
instantiate it with simple concrete functions. -/

/-- A concrete stand-in transform: every level's coefficient pair is the
padded input itself. -/
def swtConst : SwtFun := fun pd _ lvl => List.replicate lvl (pd, pd)

/-- A concrete transform with a single level whose detail coefficients are
`[0, 2]`. -/
def swtDetail02 : SwtFun := fun _ _ _ => [([0, 0], [0, 2])]

/-- A degenerate transform returning no coefficient pairs; where it is
used, only the number of levels the loop traverses matters. -/
def swtEmpty : SwtFun := fun _ _ _ => []

/-! ### Helper lemmas -/

theorem padSequence_snd (data : List ℚ) (J : ℕ) : (padSequence data J).2 = data.length := by
  simp only [padSequence]
  split <;> rfl

theorem npPadReflect_length (data : List ℚ) (w : ℕ) :
    (npPadReflect data w).length = data.length + w := by
  simp [npPadReflect]

theorem le_ceil_mul (n m : ℕ) (hm : 0 < m) : n ≤ (n + m - 1) / m * m := by
  have h2 := Nat.div_add_mod (n + m - 1) m
  have h3 : (n + m - 1) % m < m := Nat.mod_lt _ hm
  rw [Nat.mul_comm]
  omega

theorem reflectIndex_mirror {n i : ℕ} (h2 : 2 ≤ n) (hi : i < n - 1) :
    reflectIndex n (n + i) = n - 2 - i := by
  unfold reflectIndex
  rcases Nat.lt_or_ge (n + i) (2 * (n - 1)) with hlt | hge
  · rw [Nat.mod_eq_of_lt hlt, if_neg (by omega)]
    omega
  · have heq : n + i = 2 * (n - 1) := by omega
    rw [heq, Nat.mod_self, if_pos (Nat.zero_le _)]
    omega

theorem floorLog2Aux_eq_log2 (fuel n : ℕ) (h : n ≤ fuel) :
    floorLog2Aux fuel n = Nat.log2 n := by
  induction fuel generalizing n with
  | zero =>
    have hn : n = 0 := by omega
    subst hn
    rw [Nat.log2]
    simp [floorLog2Aux]
  | succ fuel ih =>
    rw [Nat.log2]
    unfold floorLog2Aux
    by_cases h2 : 2 ≤ n
    · rw [if_pos h2, if_pos h2, ih (n / 2) (by omega)]
    · rw [if_neg h2, if_neg h2]

/-- Sanity check: `floorLog2` is the floor base-2 logarithm. -/
theorem floorLog2_eq_log2 (n : ℕ) : floorLog2 n = Nat.log2 n :=
  floorLog2Aux_eq_log2 n n le_rfl

theorem npVar_eq_populationVariance (xs : List ℚ) :
    npVar xs = populationVariance xs := by
  match xs with
  | [] => rfl
  | [x] =>
    unfold npVar populationVariance
    norm_num
  | x :: y :: t =>
    unfold npVar populationVariance
    rw [if_neg (by simp), if_neg (by simp)]

theorem extract_ok {swt : SwtFun} {cfg : MODWTPeriodExtractor} {data : List ℚ}
    {name : String} {M : Option ℕ} {r : ExtractionResult}
    (h : extract swt cfg data name M = .ok r) :
    r = mkResult
      (extractCandidates
        (swt (padSequence data (decomposeLevel data.length)).1 cfg.wavelet_name
          (decomposeLevel data.length))
        data.length M (decomposeLevel data.length)) cfg.top_k := by
  simp only [extract] at h
  split at h
  · exact absurd h (by simp)
  · split at h
    · exact absurd h (by simp)
    · simp only [Except.ok.injEq] at h
      rw [padSequence_snd] at h
      exact h.symm

theorem levelCandidate_some {coeffs : List (List ℚ × List ℚ)} {n : ℕ} {M : Option ℕ}
    {j : ℕ} {c : Candidate} (h : levelCandidate coeffs n M j = some c) :
    c = (2 ^ j, npVar ((coeffs.getD (coeffs.length - j) ([], [])).2.take n)) := by
  unfold levelCandidate at h
  split at h
  · exact absurd h (by simp)
  · exact (Option.some.inj h).symm

theorem extractCandidates_period_le {coeffs : List (List ℚ × List ℚ)} {n m level : ℕ}
    {c : Candidate} (hc : c ∈ extractCandidates coeffs n (some m) level) : c.1 ≤ m := by
  rcases List.mem_filterMap.1 hc with ⟨i, _, hi⟩
  unfold levelCandidate at hi
  split at hi
  · exact absurd hi (by simp)
  · rename_i hguard
    obtain rfl := Option.some.inj hi
    simp only [exceedsMax, decide_eq_true_eq] at hguard
    exact Nat.le_of_not_lt hguard

theorem extractCandidates_pairwise (coeffs : List (List ℚ × List ℚ)) (n : ℕ)
    (M : Option ℕ) (level : ℕ) :
    List.Pairwise (fun a b : Candidate => a.1 < b.1)
      (extractCandidates coeffs n M level) := by
  unfold extractCandidates
  refine List.pairwise_filterMap.2 ((List.pairwise_lt_range level).imp ?_)
  intro i j hij b hb b' hb'
  rw [Option.mem_def] at hb hb'
  rw [levelCandidate_some hb, levelCandidate_some hb']
  exact Nat.pow_lt_pow_right (by omega) (by omega)

theorem extractCandidates_periods (coeffs : List (List ℚ × List ℚ)) (n : ℕ)
    (M : Option ℕ) (l : List ℕ) :
    (l.filterMap fun i => levelCandidate coeffs n M (i + 1)).map Prod.fst =
      (l.map fun i => 2 ^ (i + 1)).filter fun p => !exceedsMax M p := by
  induction l with
  | nil => rfl
  | cons i t ih =>
    by_cases hg : exceedsMax M (2 ^ (i + 1)) = true
    · have hnone : levelCandidate coeffs n M (i + 1) = none := by
        unfold levelCandidate
        rw [if_pos hg]
      simp [List.filterMap_cons, hnone, List.filter_cons, hg, ih]
    · have hgf : exceedsMax M (2 ^ (i + 1)) = false := by
        rcases Bool.eq_false_or_eq_true (exceedsMax M (2 ^ (i + 1))) with hb | hb
        · exact absurd hb hg
        · exact hb
      have hsome : levelCandidate coeffs n M (i + 1) =
          some (2 ^ (i + 1),
            npVar ((coeffs.getD (coeffs.length - (i + 1)) ([], [])).2.take n)) := by
        unfold levelCandidate
        rw [if_neg hg]
      simp [List.filterMap_cons, hsome, List.filter_cons, hgf, ih]

theorem insertByEnergyDesc_perm (c : Candidate) (l : List Candidate) :
    (insertByEnergyDesc c l).Perm (c :: l) := by
  induction l with
  | nil => exact List.Perm.refl _
  | cons d ds ih =>
    unfold insertByEnergyDesc
    split
    · exact List.Perm.refl _
    · exact (ih.cons d).trans (List.Perm.swap c d ds)

theorem sortByEnergyDesc_perm (l : List Candidate) : (sortByEnergyDesc l).Perm l := by
  induction l with
  | nil => exact List.Perm.refl _
  | cons c cs ih => exact (insertByEnergyDesc_perm c _).trans (ih.cons c)

theorem insertByEnergyDesc_pairwise {c : Candidate} {s : List Candidate}
    (hs : List.Pairwise candLex s) (hper : ∀ d ∈ s, c.1 < d.1) :
    List.Pairwise candLex (insertByEnergyDesc c s) := by
  induction s with
  | nil => simp [insertByEnergyDesc]
  | cons d ds ih =>
    rcases List.pairwise_cons.1 hs with ⟨hd, hds⟩
    unfold insertByEnergyDesc
    split
    · rename_i hle
      refine List.pairwise_cons.2 ⟨?_, hs⟩
      intro e he
      have hle2 : e.2 ≤ c.2 := by
        rcases List.mem_cons.1 he with rfl | he'
        · exact hle
        · rcases hd e he' with hlt | ⟨heq, _⟩
          · exact le_trans (le_of_lt hlt) hle
          · exact le_trans (le_of_eq heq.symm) hle
      rcases lt_or_eq_of_le hle2 with hlt | heq
      · exact Or.inl hlt
      · exact Or.inr ⟨heq.symm, hper e he⟩
    · rename_i hgt
      refine List.pairwise_cons.2
        ⟨?_, ih hds (fun e he => hper e (List.mem_cons_of_mem d he))⟩
      intro e he
      rcases List.mem_cons.1 ((insertByEnergyDesc_perm c ds).subset he) with rfl | he'
      · exact Or.inl (lt_of_not_le hgt)
      · exact hd e he'

theorem sortByEnergyDesc_pairwise {l : List Candidate}
    (hl : List.Pairwise (fun a b : Candidate => a.1 < b.1) l) :
    List.Pairwise candLex (sortByEnergyDesc l) := by
  induction l with
  | nil => exact List.Pairwise.nil
  | cons c cs ih =>
    rcases List.pairwise_cons.1 hl with ⟨hc, hcs⟩
    exact insertByEnergyDesc_pairwise (ih hcs)
      (fun d hd => hc d ((sortByEnergyDesc_perm cs).subset hd))

theorem zip_map_proj (l : List Candidate) :
    (l.map Prod.fst).zip (l.map Prod.snd) = l := by
  have h := List.zip_unzip l
  rw [List.unzip_eq_map] at h
  simpa using h

theorem getD_append_of_lt {σ τ : Store} {i : ℕ} (h : i < σ.length) :
    (σ ++ τ).getD i [] = σ.getD i [] := by
  simp [List.getD_eq_getElem?_getD, List.getElem?_append_left h]

theorem padSequenceSt_preserves (σ : Store) (arr J i : ℕ) (h : i < σ.length) :
    (padSequenceSt σ arr J).1.getD i [] = σ.getD i [] := by
  simp only [padSequenceSt]
  split
  · exact getD_append_of_lt h
  · rfl

/-! ### Claim theorems -/

/-- Claim C1: when a maximum-allowed-period constraint `m` is supplied,
every candidate in the returned all-candidates list and in the top-k list
has period at most `m`; a level whose period exceeds `m` contributes no
candidate, regardless of the transform output (and hence regardless of how
large that level's energy would have been). -/
theorem extract_max_period_constraint (swt : SwtFun) (cfg : MODWTPeriodExtractor)
    (data : List ℚ) (name : String) (m : ℕ) (r : ExtractionResult)
    (h : extract swt cfg data name (some m) = .ok r) :
    (∀ p ∈ r.all_periods, p ≤ m) ∧ (∀ c ∈ r.top_k, c.1 ≤ m) := by
  obtain rfl := extract_ok h
  constructor
  · intro p hp
    simp only [mkResult] at hp
    rcases List.mem_map.1 hp with ⟨c, hc, rfl⟩
    exact extractCandidates_period_le hc
  · intro c hc
    simp only [mkResult] at hc
    exact extractCandidates_period_le
      ((sortByEnergyDesc_perm _).subset (List.mem_of_mem_take hc))

/-- Witness for C1 at a concrete input: with constraint `2` on a 4-sample
input, only period 2 survives. -/
theorem extract_max_period_constraint_witness :
    (∀ p ∈ ([2] : List ℕ), p ≤ 2) ∧
    (∀ c ∈ ([((2 : ℕ), (5 : ℚ) / 4)] : List Candidate), c.1 ≤ 2) :=
  extract_max_period_constraint swtConst ⟨"db4", 3⟩ [1, 2, 3, 4] "S" 2
    ⟨[2], [5 / 4], [(2, 5 / 4)]⟩ (by
      have h : decomposeLevel 4 = 2 := by decide
      norm_num [extract, swtConst, h, padSequence, mkResult, extractCandidates,
        levelCandidate, exceedsMax, npVar, sortByEnergyDesc, insertByEnergyDesc,
        List.range_succ, List.filterMap_cons, List.filterMap_nil])

/-- Claim C2: the returned top-k list is the first `top_k` entries of a
permutation of the surviving candidates ordered by strictly descending
energy with exactly-equal energies in ascending-period order; when fewer
than `top_k` survive, taking returns them all, without padding or error. -/
theorem extract_top_k_selection (swt : SwtFun) (cfg : MODWTPeriodExtractor)
    (data : List ℚ) (name : String) (M : Option ℕ) (r : ExtractionResult)
    (h : extract swt cfg data name M = .ok r) :
    ∃ s : List Candidate,
      s.Perm (r.all_periods.zip r.all_energies) ∧
      List.Pairwise candLex s ∧
      r.top_k = s.take cfg.top_k := by
  obtain rfl := extract_ok h
  refine ⟨sortByEnergyDesc
    (extractCandidates
      (swt (padSequence data (decomposeLevel data.length)).1 cfg.wavelet_name
        (decomposeLevel data.length))
      data.length M (decomposeLevel data.length)), ?_, ?_, rfl⟩
  · simp only [mkResult]
    rw [zip_map_proj]
    exact sortByEnergyDesc_perm _
  · exact sortByEnergyDesc_pairwise (extractCandidates_pairwise _ _ _ _)

/-- Witness for C2 at a concrete input with an exact energy tie: the tie
is broken by ascending period. -/
theorem extract_top_k_selection_witness :
    ∃ s : List Candidate,
      s.Perm (([2, 4] : List ℕ).zip ([5 / 4, 5 / 4] : List ℚ)) ∧
      List.Pairwise candLex s ∧
      [((2 : ℕ), (5 : ℚ) / 4), (4, 5 / 4)] = s.take 3 :=
  extract_top_k_selection swtConst ⟨"db4", 3⟩ [1, 2, 3, 4] "S" none
    ⟨[2, 4], [5 / 4, 5 / 4], [(2, 5 / 4), (4, 5 / 4)]⟩ (by
      have h : decomposeLevel 4 = 2 := by decide
      norm_num [extract, swtConst, h, padSequence, mkResult, extractCandidates,
        levelCandidate, exceedsMax, npVar, sortByEnergyDesc, insertByEnergyDesc,
        List.range_succ, List.filterMap_cons, List.filterMap_nil])

/-- Claim C3, counterexample: the reported energy is `np.var`, the
population variance, not the unbiased sample variance the claim states.
On a two-sample input whose level-1 detail coefficients truncate to
`[0, 2]`, the code reports energy `1` (division by the count `2`), while
the claim's formula — division by `count - 1 = 1` — gives `2`. -/
theorem extract_energy_not_unbiased :
    extract swtDetail02 ⟨"db4", 3⟩ [5, 7] "S" none = .ok ⟨[2], [1], [(2, 1)]⟩ ∧
    specSampleVariance [0, 2] = 2 ∧ (1 : ℚ) ≠ 2 := by
  refine ⟨?_, by norm_num [specSampleVariance], by norm_num⟩
  have h : decomposeLevel 2 = 1 := by decide
  norm_num [extract, swtDetail02, h, padSequence, mkResult, extractCandidates,
    levelCandidate, exceedsMax, npVar, sortByEnergyDesc, insertByEnergyDesc,
    List.range_succ, List.filterMap_cons, List.filterMap_nil]

/-- Claim C3 as amended: for every surviving level `j`, the reported
energy is the population variance of the detail sequence `D_j` truncated
to the first `N` samples — the sum of squared deviations from the mean
divided by the count, `0` when the count is at most 1. -/
theorem extract_energy_population_variance (swt : SwtFun) (cfg : MODWTPeriodExtractor)
    (data : List ℚ) (name : String) (M : Option ℕ) (r : ExtractionResult)
    (h : extract swt cfg data name M = .ok r) (j : ℕ) (e : ℚ)
    (hmem : ((2 : ℕ) ^ j, e) ∈ r.all_periods.zip r.all_energies) :
    e = populationVariance
        (((swt (padSequence data (decomposeLevel data.length)).1 cfg.wavelet_name
              (decomposeLevel data.length)).getD
            ((swt (padSequence data (decomposeLevel data.length)).1 cfg.wavelet_name
              (decomposeLevel data.length)).length - j) ([], [])).2.take data.length) := by
  obtain rfl := extract_ok h
  simp only [mkResult] at hmem
  rw [zip_map_proj] at hmem
  rcases List.mem_filterMap.1 hmem with ⟨i, _, hi⟩
  have hc := levelCandidate_some hi
  have hj : j = i + 1 :=
    Nat.pow_right_injective (by omega) (congrArg Prod.fst hc)
  subst hj
  injection hc with h1 h2
  rw [h2, npVar_eq_populationVariance]

/-- Witness for the amended C3 at a concrete input. -/
theorem extract_energy_population_variance_witness :
    (5 : ℚ) / 4 = populationVariance
      (((swtConst (padSequence [1, 2, 3, 4] (decomposeLevel [1, 2, 3, 4].length)).1 "db4"
            (decomposeLevel [1, 2, 3, 4].length)).getD
          ((swtConst (padSequence [1, 2, 3, 4] (decomposeLevel [1, 2, 3, 4].length)).1 "db4"
            (decomposeLevel [1, 2, 3, 4].length)).length - 1) ([], [])).2.take
        [1, 2, 3, 4].length) :=
  extract_energy_population_variance swtConst ⟨"db4", 3⟩ [1, 2, 3, 4] "S" none
    ⟨[2, 4], [5 / 4, 5 / 4], [(2, 5 / 4), (4, 5 / 4)]⟩ (by
      have h : decomposeLevel 4 = 2 := by decide
      norm_num [extract, swtConst, h, padSequence, mkResult, extractCandidates,
        levelCandidate, exceedsMax, npVar, sortByEnergyDesc, insertByEnergyDesc,
        List.range_succ, List.filterMap_cons, List.filterMap_nil])
    1 (5 / 4) (by norm_num)

/-- Claim C4, counterexample: the claim predicts level cap 8 for an
unconstrained call, but on a 512-sample input the code traverses
`min(12, floor(log2 512)) = 9` levels and returns 9 periods, whereas
`min(8, floor(log2 512)) = 8`. -/
theorem extract_depth_cap_not_eight :
    (extract swtEmpty ⟨"db4", 3⟩ (List.replicate 512 0) "S" none).map
      (fun r => r.all_periods.length) = .ok 9 ∧
    min 8 (floorLog2 512) = 8 ∧ (9 : ℕ) ≠ 8 := by
  refine ⟨?_, by decide, by decide⟩
  have h : decomposeLevel 512 = 9 := by decide
  norm_num [extract, swtEmpty, h, padSequence, mkResult, extractCandidates,
    levelCandidate, exceedsMax, npVar, sortByEnergyDesc, insertByEnergyDesc,
    List.range_succ, List.filterMap_cons, List.filterMap_nil, Except.map]

/-- Claim C4 as amended: whether or not a maximum-period constraint is
supplied, the decomposition depth is `min(12, floor(log2 N))`: every call
traverses exactly the levels `1..min(12, floor(log2 N))`, and the
all-candidates periods are those levels' periods with only the
maximum-period guard filtering them. -/
theorem extract_depth_capped_twelve (swt : SwtFun) (cfg : MODWTPeriodExtractor)
    (data : List ℚ) (name : String) (M : Option ℕ) (r : ExtractionResult)
    (h : extract swt cfg data name M = .ok r) :
    r.all_periods =
      ((List.range (min 12 (floorLog2 data.length))).map fun i => 2 ^ (i + 1)).filter
        fun p => !exceedsMax M p := by
  obtain rfl := extract_ok h
  simp only [mkResult]
  exact extractCandidates_periods _ _ _ _

/-- Witness for the amended C4 at concrete inputs, one constrained call
and one unconstrained call on the same 4-sample sequence. -/
theorem extract_depth_capped_twelve_witness :
    (([2] : List ℕ) =
      ((List.range (min 12 (floorLog2 [1, 2, 3, 4].length))).map fun i => 2 ^ (i + 1)).filter
        fun p => !exceedsMax (some 2) p) ∧
    (([2, 4] : List ℕ) =
      ((List.range (min 12 (floorLog2 [1, 2, 3, 4].length))).map fun i => 2 ^ (i + 1)).filter
        fun p => !exceedsMax none p) :=
  ⟨extract_depth_capped_twelve swtConst ⟨"db4", 3⟩ [1, 2, 3, 4] "S" (some 2)
      ⟨[2], [5 / 4], [(2, 5 / 4)]⟩ (by
        have h : decomposeLevel 4 = 2 := by decide
        norm_num [extract, swtConst, h, padSequence, mkResult, extractCandidates,
          levelCandidate, exceedsMax, npVar, sortByEnergyDesc, insertByEnergyDesc,
          List.range_succ, List.filterMap_cons, List.filterMap_nil]),
   extract_depth_capped_twelve swtConst ⟨"db4", 3⟩ [1, 2, 3, 4] "S" none
      ⟨[2, 4], [5 / 4, 5 / 4], [(2, 5 / 4), (4, 5 / 4)]⟩ (by
        have h : decomposeLevel 4 = 2 := by decide
        norm_num [extract, swtConst, h, padSequence, mkResult, extractCandidates,
          levelCandidate, exceedsMax, npVar, sortByEnergyDesc, insertByEnergyDesc,
          List.range_succ, List.filterMap_cons, List.filterMap_nil])⟩

/-- Claim C5: for `N ≥ 2`, padding returns the original length `N` and a
sequence of length `ceil(N / 2^J) * 2^J`; when that target already equals
`N` the input is returned unchanged; otherwise the appended run mirrors
the data backwards with position `N-1` reflecting around itself: the
`i`-th appended sample (while the backward mirror lasts) is the input
sample at position `N-2-i`, so the first appended value is the sample at
`N-2`. -/
theorem padSequence_reflective (data : List ℚ) (J : ℕ) (h2 : 2 ≤ data.length) :
    (padSequence data J).2 = data.length ∧
    (padSequence data J).1.length =
      ((data.length + 2 ^ J - 1) / 2 ^ J) * 2 ^ J ∧
    (((data.length + 2 ^ J - 1) / 2 ^ J) * 2 ^ J = data.length →
      (padSequence data J).1 = data) ∧
    ∀ i, i < ((data.length + 2 ^ J - 1) / 2 ^ J) * 2 ^ J - data.length →
      i < data.length - 1 →
      (padSequence data J).1.getD (data.length + i) 0 =
        data.getD (data.length - 2 - i) 0 := by
  have hm : 0 < 2 ^ J := Nat.two_pow_pos J
  have hle := le_ceil_mul data.length (2 ^ J) hm
  refine ⟨padSequence_snd data J, ?_, ?_, ?_⟩
  · simp only [padSequence]
    split
    · rename_i hlt
      rw [npPadReflect_length]
      omega
    · rename_i hnlt
      show data.length = ((data.length + 2 ^ J - 1) / 2 ^ J) * 2 ^ J
      omega
  · intro htar
    simp only [padSequence]
    rw [if_neg (by omega)]
  · intro i hi1 hi2
    simp only [padSequence]
    rw [if_pos (by omega)]
    unfold npPadReflect
    rw [List.getD_eq_getElem?_getD, List.getElem?_append_right (by omega)]
    have hidx : data.length + i - data.length = i := by omega
    rw [hidx, List.getElem?_map, List.getElem?_range (by omega)]
    simp only [Option.map_some', Option.getD_some]
    rw [reflectIndex_mirror h2 hi2]

/-- Witness for C5 at a concrete input: `[1, 2, 3]` padded for 2 levels
keeps length 3 as the original length, and the first appended sample is
the one at position `N - 2`. -/
theorem padSequence_reflective_witness :
    (padSequence [1, 2, 3] 2).2 = [1, 2, 3].length ∧
    (padSequence [1, 2, 3] 2).1.getD ([1, 2, 3].length + 0) 0 =
      [1, 2, 3].getD ([1, 2, 3].length - 2 - 0) 0 :=
  ⟨(padSequence_reflective [1, 2, 3] 2 (by norm_num)).1,
   (padSequence_reflective [1, 2, 3] 2 (by norm_num)).2.2.2 0 (by norm_num) (by norm_num)⟩

/-- Claim C6: on an input with fewer than 2 samples, `extract` fails with
an error and returns no candidates: the empty input fails at
`int(np.floor(np.log2(0)))`, and a single-sample input makes
`decompose_level = 0`, which the transform call rejects. -/
theorem extract_rejects_short_input (swt : SwtFun) (cfg : MODWTPeriodExtractor)
    (data : List ℚ) (name : String) (M : Option ℕ) (h : data.length < 2) :
    ∃ e, extract swt cfg data name M = .error e := by
  rcases data with _ | ⟨x, _ | ⟨y, t⟩⟩
  · exact ⟨.log2OfZero, rfl⟩
  · exact ⟨.swtLevelTooSmall, rfl⟩
  · exfalso
    simp only [List.length_cons] at h
    omega

/-- Witness for C6 at the empty input. -/
theorem extract_rejects_short_input_witness :
    ∃ e, extract swtConst ⟨"db4", 3⟩ ([] : List ℚ) "S" none = .error e :=
  extract_rejects_short_input swtConst ⟨"db4", 3⟩ [] "S" none (by norm_num)

/-- Claim C7: construction fails for a wavelet name outside the supported
list, eagerly at construction time, and succeeds for every supported name
(a pure lookup storing the configuration). -/
theorem mkExtractor_eager_validation (wavelist : List String) (name : String) (k : ℕ) :
    (name ∉ wavelist → mkExtractor wavelist name k = .error .unknownWavelet) ∧
    (name ∈ wavelist → mkExtractor wavelist name k = .ok ⟨name, k⟩) := by
  constructor
  · intro h
    unfold mkExtractor
    rw [if_neg h]
  · intro h
    unfold mkExtractor
    rw [if_pos h]

/-- Witness for C7: an unsupported name fails, a supported one succeeds. -/
theorem mkExtractor_eager_validation_witness :
    mkExtractor ["db4"] "nonsense" 3 = .error .unknownWavelet ∧
    mkExtractor ["db4"] "db4" 3 = .ok ⟨"db4", 3⟩ :=
  ⟨(mkExtractor_eager_validation ["db4"] "nonsense" 3).1 (by simp),
   (mkExtractor_eager_validation ["db4"] "db4" 3).2 (by simp)⟩

/-- Claim C8: two calls with identical input sequence, configuration
(wavelet name and top-k) and maximum-period constraint return identical
results — extraction is a pure function of those inputs. -/
theorem extract_deterministic (swt : SwtFun) (cfg1 cfg2 : MODWTPeriodExtractor)
    (d1 d2 : List ℚ) (name : String) (M1 M2 : Option ℕ)
    (hcfg : cfg1 = cfg2) (hd : d1 = d2) (hM : M1 = M2) :
    extract swt cfg1 d1 name M1 = extract swt cfg2 d2 name M2 := by
  subst hcfg
  subst hd
  subst hM
  rfl

/-- Witness for C8 at a concrete input. -/
theorem extract_deterministic_witness :
    extract swtConst ⟨"db4", 3⟩ [1, 2] "S" none =
      extract swtConst ⟨"db4", 3⟩ [1, 2] "S" none :=
  extract_deterministic swtConst ⟨"db4", 3⟩ ⟨"db4", 3⟩ [1, 2] [1, 2] "S" none none
    rfl rfl rfl

/-- Claim C9: the label (`input_name`) is only interpolated into the
printed progress line; two calls differing only in it return identical
results. -/
theorem extract_label_no_effect (swt : SwtFun) (cfg : MODWTPeriodExtractor)
    (data : List ℚ) (n1 n2 : String) (M : Option ℕ) :
    extract swt cfg data n1 M = extract swt cfg data n2 M := rfl

/-- Claim C10: at store level, neither `extract` nor `_pad_sequence`
writes to any pre-existing array: `np.pad` allocates the padded copy as a
fresh array, so every array already in the store — the caller's input
included — is unchanged afterwards. -/
theorem extract_preserves_caller_arrays (swt : SwtFun) (cfg : MODWTPeriodExtractor)
    (σ : Store) (arr : ℕ) (M : Option ℕ) (i : ℕ) (h : i < σ.length) :
    (extractSt swt cfg σ arr M).1.getD i [] = σ.getD i [] ∧
    ∀ J, (padSequenceSt σ arr J).1.getD i [] = σ.getD i [] := by
  constructor
  · simp only [extractSt]
    split
    · rfl
    · split
      · rfl
      · exact padSequenceSt_preserves σ arr _ i h
  · intro J
    exact padSequenceSt_preserves σ arr J i h

/-- Witness for C10: a store holding one 3-sample array (which padding
does extend, through a fresh allocation) is unchanged at the input
position. -/
theorem extract_preserves_caller_arrays_witness :
    (extractSt swtConst ⟨"db4", 3⟩ [[1, 2, 3]] 0 none).1.getD 0 [] =
      ([[1, 2, 3]] : Store).getD 0 [] ∧
    ∀ J, (padSequenceSt [[1, 2, 3]] 0 J).1.getD 0 [] =
      ([[1, 2, 3]] : Store).getD 0 [] :=
  extract_preserves_caller_arrays swtConst ⟨"db4", 3⟩ [[1, 2, 3]] 0 none 0 (by norm_num)

end Modwt
